import Mathlib

/-!
Verification of the elastic rendezvous and pipeline-topology coordinator
(project-pactum "bamboo"), embedded from
`src/external/deepspeed/DeepSpeedExamples/pipeline_parallelism/transformer.py`
(function `test_encoder`) and, where the component's code lives outside the
repository snapshot, modelled from the specification's contracts.
-/

namespace Bamboo

/-- Error raised when custom partition sizes do not sum to the layer count
(the source guards with `assert sum(parts) == args.N`; the spec names the
failure `PartitionSizeMismatch`). -/
inductive PartitionError where
  | partitionSizeMismatch
deriving DecidableEq, Repr

/-- Error raised when grid dimensions do not match the membership size
(the spec names the failure `TopologyMismatch`). -/
inductive TopologyError where
  | topologyMismatch
deriving DecidableEq, Repr

/-- Errors of the rendezvous engine (spec taxonomy, section 7). -/
inductive RdzvError where
  | rendezvousTimeout
  | coordinationUnavailable
deriving DecidableEq, Repr

/-- A grid coordinate `(pipeline_rank, data_parallel_rank)`. -/
structure GridCoordinate where
  pipeRank : Nat
  dataRank : Nat
deriving DecidableEq, Repr

/-! ## Custom stage partitioning

Embeds the `parts` computation of `test_encoder` (transformer.py:257-262):

    parts = [int(p) for p in args.parts.split(',')]
    assert sum(parts) == args.N
    parts[-1] += 2
    parts = [0] + [sum(parts[:i]) + p for i, p in enumerate(parts)]
-/

/-- `parts[-1] += 2`: add 2 to the last element of the size list
(transformer.py:261). -/
def widenLast : List Nat → List Nat
  | [] => []
  | [x] => [x + 2]
  | x :: y :: xs => x :: widenLast (y :: xs)

/-- `[0] + [sum(parts[:i]) + p for i, p in enumerate(parts)]`
(transformer.py:262): prefix-sum boundaries of a size list. -/
def partBoundaries (parts : List Nat) : List Nat :=
  0 :: (List.range parts.length).map (fun i => (parts.take i).sum + parts.getD i 0)

/-- The custom partition computation of `test_encoder` (transformer.py:258-262):
validate `sum(parts) == N` (the `assert`, named `PartitionSizeMismatch` by the
spec), widen the last size by 2, and convert to prefix-sum boundaries. -/
def computeParts (sizes : List Nat) (N : Nat) : Except PartitionError (List Nat) :=
  if sizes.sum = N then
    .ok (partBoundaries (widenLast sizes))
  else
    .error .partitionSizeMismatch

/-- The layer-like units handed to the pipeline (transformer.py:250):
`layers = [i for i in encoder.layers] + [encoder.norm, lambda x: x.sum(-1)]` —
the `N` encoder layers followed by the final LayerNorm and the sum-reduction
step. -/
inductive LayerUnit where
  | encoderLayer (i : Nat)
  | finalNorm
  | sumReduce
deriving DecidableEq, Repr

/-- The layer list built at transformer.py:250: `N` encoder layers, then the
final norm, then the trailing sum-reduction lambda. -/
def pipelineLayers (N : Nat) : List LayerUnit :=
  (List.range N).map .encoderLayer ++ [.finalNorm, .sumReduce]

/-- The model state constructed after a successful custom partition
(boundaries plus the extended layer list handed to `PipelineModule`,
transformer.py:263-269). -/
structure PipelineModel where
  boundaries : List Nat
  layers : List LayerUnit
deriving DecidableEq, Repr

/-- Custom-mode pipeline setup in `test_encoder`: the partition boundaries are
computed (with the sum assertion) before any model state is constructed; on
failure no model is built (transformer.py:257-269). -/
def setupCustomPipeline (sizes : List Nat) (N : Nat) :
    Except PartitionError PipelineModel :=
  match computeParts sizes N with
  | .error e => .error e
  | .ok b => .ok { boundaries := b, layers := pipelineLayers N }

/-! ## Rendezvous configuration handling

Embeds transformer.py:230-239:

    rdzv_configs = json.loads(os.environ['PROJECT_PACTUM_RDZV_CONFIGS'])
    rdzv_configs['last_call_timeout'] = 1
    rdzv_parameters = RendezvousParameters(..., **rdzv_configs)
-/

/-- Python dict assignment `d[k] = v` on an association list: replace the
first binding of `k`, or append a fresh binding. -/
def setConfig : List (String × Int) → String → Int → List (String × Int)
  | [], k, v => [(k, v)]
  | (k', v') :: rest, k, v =>
    if k' = k then (k, v) :: rest else (k', v') :: setConfig rest k v

/-- The externally supplied rendezvous configuration blob after
`rdzv_configs['last_call_timeout'] = 1` (transformer.py:231), i.e. the keyword
arguments actually splatted into `RendezvousParameters`
(transformer.py:232-239). -/
def prepareRdzvConfigs (configs : List (String × Int)) : List (String × Int) :=
  setConfig configs "last_call_timeout" 1

/-- The `last_call_timeout` value the constructed `RendezvousParameters`
carries to the rendezvous handler. -/
def handlerLastCallTimeout (configs : List (String × Int)) : Option Int :=
  (prepareRdzvConfigs configs).lookup "last_call_timeout"

/-! ## Topology Builder

`PipeDataParallelTopology` is constructed at transformer.py:255 but its code is
not part of this snapshot, so the builder is modelled from the spec's contract
(section 4.2). -/

/-- Modelled from the spec: the Topology Builder's row-major assignment — the
`i`-th worker in decision order gets `pipeline_rank = i // D`,
`data_parallel_rank = i % D` (spec 4.2; `PipeDataParallelTopology` itself is
not in the snapshot). The list pairs each worker with its coordinate, in
decision order starting at index `i`. -/
def assignCoords (D : Nat) : Nat → List α → List (α × GridCoordinate)
  | _, [] => []
  | i, w :: ws => (w, ⟨i / D, i % D⟩) :: assignCoords D (i + 1) ws

/-- Modelled from the spec: `build(decision, P, D)` — precondition
`P * D == len(decision)`, violated with a fatal `TopologyMismatch` and no
coordinate assignment; otherwise the row-major mapping (spec 4.2). -/
def buildTopology (decision : List α) (P D : Nat) :
    Except TopologyError (List (α × GridCoordinate)) :=
  if P * D = decision.length then
    .ok (assignCoords D 0 decision)
  else
    .error .topologyMismatch

/-! ## Uniform stage partitioning

`PipelineModule(partition_method='uniform', ...)` is invoked at
transformer.py:263-269, but the partitioner's code is not part of this
snapshot; the uniform mode is modelled from the spec's contract (section
4.3). -/

/-- Modelled from the spec: the `j`-th uniform stage boundary — `N` layers are
divided among `P` stages as evenly as possible via proportional boundaries
(spec 4.3: the exact balancing algorithm is an implementation choice,
deterministic from `(N, P)` alone). -/
def uniformBoundary (N P j : Nat) : Nat :=
  j * N / P

/-- Modelled from the spec: the uniform partition — `P` contiguous half-open
index ranges `[boundary j, boundary (j+1))` for `j = 0 .. P-1` (spec 4.3). -/
def uniformPartition (N P : Nat) : List (Nat × Nat) :=
  (List.range P).map (fun j => (uniformBoundary N P j, uniformBoundary N P (j + 1)))

/-! ## Redundancy & Recovery Manager

`deepspeed.initialize(..., redundancy_level=..., eager_recovery=...)` is
invoked at transformer.py:274-280, but the manager's code is not part of this
snapshot; it is modelled from the spec's contract (section 4.4). -/

/-- A recovery plan for a single stage's redundancy group after worker loss:
either the loss is job-fatal (`unrecoverable = true`, the group is fully
empty), or the surviving members are listed for promotion (spec 4.4). -/
structure RecoveryPlan where
  unrecoverable : Bool
  promotions : Finset Nat
deriving DecidableEq

/-- Modelled from the spec: the redundancy group backing `pipeline_rank =
stage` with data-parallel width `D` and redundancy level `R` — `R + 1`
consecutive data-parallel slots of the stage's row-major row are reserved as
redundant copies (spec 4.4). Workers are identified by their decision index. -/
def redundancyGroup (stage D R : Nat) : Finset Nat :=
  (Finset.range (R + 1)).image (fun r => stage * D + r)

/-- Modelled from the spec: the Redundancy Manager's decision when the workers
in `lost` disappear from a stage's group — if no member survives the loss is
unrecoverable (job-fatal `UnrecoverableLoss`); otherwise it is recoverable and
a surviving member is promoted (spec 4.4, 7). -/
def planGroupLoss (group lost : Finset Nat) : RecoveryPlan :=
  let survivors := group \ lost
  if survivors = ∅ then
    { unrecoverable := true, promotions := ∅ }
  else
    { unrecoverable := false, promotions := survivors }

/-! ## Rendezvous Engine

`create_rdzv_handler` / `rdzv_handler.get_global_decision` are invoked at
transformer.py:240-254, but the engine's code (project_pactum.rendezvous.etcd)
is not part of this snapshot; the join protocol is modelled from the spec's
contract (section 4.1). -/

/-- Modelled from the spec: one open round of the join protocol, polled once
per time step for `fuel` remaining steps before the overall setup deadline.
`f t` is the number of workers registered at time `t` (nondecreasing in a real
trace). The round closes with `max_nodes` reached, or — once `min_nodes` is
reached — after a `last_call_timeout` window admitting stragglers; if the
deadline passes without `min_nodes` registrations the join fails with the
fatal `RendezvousTimeout` (spec 4.1). Returns the size of the global
decision. -/
def joinRound (f : Nat → Nat) (minNodes maxNodes lastCall : Nat) :
    Nat → Nat → Except RdzvError Nat
  | 0, t =>
    if minNodes ≤ f t then .ok (min (f t) maxNodes)
    else .error .rendezvousTimeout
  | fuel + 1, t =>
    if maxNodes ≤ f t then .ok maxNodes
    else if minNodes ≤ f t then .ok (min (f (t + lastCall)) maxNodes)
    else joinRound f minNodes maxNodes lastCall fuel (t + 1)

/-- Modelled from the spec: `join(worker, min_nodes, max_nodes,
last_call_timeout)` with overall setup timeout `T`, observing the registration
trace `f` from time 0 (spec 4.1). -/
def join (f : Nat → Nat) (minNodes maxNodes lastCall T : Nat) :
    Except RdzvError Nat :=
  joinRound f minNodes maxNodes lastCall T 0

/-! ## Lemmas about the custom partition computation -/

theorem length_widenLast : ∀ l : List Nat, (widenLast l).length = l.length
  | [] => rfl
  | [_] => rfl
  | x :: y :: xs => by
    show (x :: widenLast (y :: xs)).length = (x :: y :: xs).length
    simp [length_widenLast (y :: xs)]

theorem sum_widenLast : ∀ l : List Nat, l ≠ [] → (widenLast l).sum = l.sum + 2
  | [x], _ => by simp [widenLast]
  | x :: y :: xs, _ => by
    show (x :: widenLast (y :: xs)).sum = (x :: y :: xs).sum + 2
    have := sum_widenLast (y :: xs) (by simp)
    simp only [List.sum_cons, this]
    omega

theorem take_widenLast : ∀ (l : List Nat) (j : Nat), j < l.length →
    (widenLast l).take j = l.take j
  | [], j, h => by simp at h
  | [x], j, h => by
    have : j = 0 := by simpa using h
    subst this; rfl
  | x :: y :: xs, 0, _ => rfl
  | x :: y :: xs, j + 1, h => by
    show (x :: widenLast (y :: xs)).take (j + 1) = (x :: y :: xs).take (j + 1)
    have hj : j < (y :: xs).length := by simpa using h
    simp [List.take_succ_cons, take_widenLast (y :: xs) j hj]

theorem getD_last_widenLast : ∀ l : List Nat, l ≠ [] →
    (widenLast l).getD (l.length - 1) 0 = l.getD (l.length - 1) 0 + 2
  | [x], _ => by simp [widenLast]
  | x :: y :: xs, _ => by
    show (x :: widenLast (y :: xs)).getD ((x :: y :: xs).length - 1) 0 =
      (x :: y :: xs).getD ((x :: y :: xs).length - 1) 0 + 2
    have hlen : (x :: y :: xs).length - 1 = ((y :: xs).length - 1) + 1 := by
      simp
    rw [hlen, List.getD_cons_succ, List.getD_cons_succ,
      getD_last_widenLast (y :: xs) (by simp)]

theorem partBoundaries_length (parts : List Nat) :
    (partBoundaries parts).length = parts.length + 1 := by
  simp [partBoundaries]

theorem partBoundaries_getD (parts : List Nat) (j : Nat) (h : j ≤ parts.length) :
    (partBoundaries parts).getD j 0 = (parts.take j).sum := by
  cases j with
  | zero => simp [partBoundaries]
  | succ i =>
    have hi : i < parts.length := by omega
    rw [partBoundaries, List.getD_cons_succ, List.getD_eq_getElem?_getD,
      List.getElem?_map, List.getElem?_range hi]
    simp only [Option.map_some', Option.getD_some]
    rw [List.sum_take_succ _ i hi, List.getD_eq_getElem?_getD,
      List.getElem?_eq_getElem hi]
    simp

/-! ## Claim theorems: custom partitioning (C2, C3, C4, C10) -/

/-- Claim C2, counterexample: the claim states that boundary `j` equals the
sum of the first `j` sizes for every `j` from `0` to `P`. For the custom sizes
`[1,2,2,3]` summing to `N = 8` the code produces boundaries `[0,1,3,5,10]`,
whose entry at `j = P = 4` is `10`, not the prefix sum `8`: the last stage is
widened by 2, so the claim fails as stated. -/
theorem customPartition_prefixSum_at_P_counterexample :
    ([1, 2, 2, 3] : List Nat).sum = 8 ∧
    computeParts [1, 2, 2, 3] 8 = .ok [0, 1, 3, 5, 10] ∧
    ¬ (∀ j ≤ 4, ([0, 1, 3, 5, 10] : List Nat).getD j 0 =
        (([1, 2, 2, 3] : List Nat).take j).sum) := by
  refine ⟨by decide, rfl, fun h => ?_⟩
  have := h 4 (by decide)
  simp at this

/-- Claim C2 (amended): for every custom size list of `P` positive integers
summing to the layer count `N`, the produced boundary `j` equals the sum of
the first `j` sizes for every `j` from `0` to `P - 1`, while the final
boundary `P` equals `N + 2` (the last stage is widened by the two trailing
non-layer steps). -/
theorem customPartition_boundaries_are_prefixSums (sizes : List Nat) (N : Nat)
    (hne : sizes ≠ []) (_hpos : ∀ s ∈ sizes, 0 < s) (hsum : sizes.sum = N) :
    ∃ B, computeParts sizes N = .ok B ∧
      (∀ j < sizes.length, B.getD j 0 = (sizes.take j).sum) ∧
      B.getD sizes.length 0 = N + 2 := by
  refine ⟨partBoundaries (widenLast sizes), by simp [computeParts, hsum], ?_, ?_⟩
  · intro j hj
    rw [partBoundaries_getD _ _ (by rw [length_widenLast]; omega),
      take_widenLast _ _ hj]
  · rw [partBoundaries_getD _ _ (by rw [length_widenLast]),
      ← length_widenLast sizes, List.take_length, sum_widenLast _ hne, hsum]

/-- Claim C2, witness: the amended statement at sizes `[1,2,2,3]`, `N = 8`. -/
theorem customPartition_boundaries_are_prefixSums_witness :
    ([1, 2, 2, 3] : List Nat) ≠ [] ∧
    ∃ B, computeParts [1, 2, 2, 3] 8 = .ok B ∧
      (∀ j < ([1, 2, 2, 3] : List Nat).length,
        B.getD j 0 = (([1, 2, 2, 3] : List Nat).take j).sum) ∧
      B.getD ([1, 2, 2, 3] : List Nat).length 0 = 8 + 2 :=
  ⟨by decide,
    customPartition_boundaries_are_prefixSums [1, 2, 2, 3] 8 (by decide)
      (by decide) (by decide)⟩

/-- Claim C3: in custom partition mode the final stage is widened beyond its
caller-supplied size: the last range `[B (P-1), B P)` has width equal to the
last custom size plus 2, its end is `N + 2`, and it therefore covers the
trailing indices `N` and `N + 1` of the extended layer list, which hold the
final LayerNorm and the loss-reduction step appended after the last real
layer and not counted in `N`. -/
theorem customPartition_finalStage_covers_trailing (sizes : List Nat) (N : Nat)
    (hne : sizes ≠ []) (hsum : sizes.sum = N) :
    ∃ B, computeParts sizes N = .ok B ∧
      B.getD sizes.length 0 =
        B.getD (sizes.length - 1) 0 + (sizes.getD (sizes.length - 1) 0 + 2) ∧
      B.getD (sizes.length - 1) 0 ≤ N ∧
      B.getD sizes.length 0 = N + 2 ∧
      (pipelineLayers N)[N]? = some .finalNorm ∧
      (pipelineLayers N)[N + 1]? = some .sumReduce := by
  have hlen : sizes.length ≠ 0 := by
    intro h; exact hne (List.eq_nil_of_length_eq_zero h)
  have hlt : sizes.length - 1 < sizes.length := by omega
  have hwlen : (widenLast sizes).length = sizes.length := length_widenLast sizes
  refine ⟨partBoundaries (widenLast sizes), by simp [computeParts, hsum],
    ?_, ?_, ?_, ?_, ?_⟩
  · rw [partBoundaries_getD _ _ (by omega), partBoundaries_getD _ _ (by omega)]
    have hstep : ((widenLast sizes).take ((sizes.length - 1) + 1)).sum =
        ((widenLast sizes).take (sizes.length - 1)).sum +
          (widenLast sizes).getD (sizes.length - 1) 0 := by
      rw [List.sum_take_succ _ _ (by omega), List.getD_eq_getElem?_getD,
        List.getElem?_eq_getElem (by omega)]
      simp
    have hidx : (sizes.length - 1) + 1 = sizes.length := by omega
    rw [hidx] at hstep
    rw [hstep, getD_last_widenLast sizes hne]
  · rw [partBoundaries_getD _ _ (by omega), take_widenLast _ _ hlt]
    calc (sizes.take (sizes.length - 1)).sum
        ≤ (sizes.take (sizes.length - 1)).sum +
            (sizes.drop (sizes.length - 1)).sum := Nat.le_add_right _ _
      _ = sizes.sum := by rw [← List.sum_append, List.take_append_drop]
      _ = N := hsum
  · rw [partBoundaries_getD _ _ (by omega), ← hwlen, List.take_length,
      sum_widenLast _ hne, hsum]
  · rw [pipelineLayers, List.getElem?_append_right (by simp)]
    simp
  · rw [pipelineLayers, List.getElem?_append_right (by simp)]
    simp

/-- Claim C3, witness: at sizes `[1,2,2,3]`, `N = 8`, the final stage runs
from boundary `5` to `10 = 8 + 2`, two entries wider than the caller's last
size `3`, covering indices `8` (finalNorm) and `9` (sumReduce). -/
theorem customPartition_finalStage_covers_trailing_witness :
    ([1, 2, 2, 3] : List Nat) ≠ [] ∧
    ∃ B, computeParts [1, 2, 2, 3] 8 = .ok B ∧
      B.getD ([1, 2, 2, 3] : List Nat).length 0 =
        B.getD (([1, 2, 2, 3] : List Nat).length - 1) 0 +
          (([1, 2, 2, 3] : List Nat).getD (([1, 2, 2, 3] : List Nat).length - 1) 0 + 2) ∧
      B.getD (([1, 2, 2, 3] : List Nat).length - 1) 0 ≤ 8 ∧
      B.getD ([1, 2, 2, 3] : List Nat).length 0 = 8 + 2 ∧
      (pipelineLayers 8)[8]? = some .finalNorm ∧
      (pipelineLayers 8)[8 + 1]? = some .sumReduce :=
  ⟨by decide,
    customPartition_finalStage_covers_trailing [1, 2, 2, 3] 8 (by decide) (by decide)⟩

/-- Claim C4: whenever the custom sizes do not sum to the layer count `N`,
the partition fails fast with `PartitionSizeMismatch` (the source's
`assert sum(parts) == args.N`), produces no partition boundaries, and
constructs no model state. -/
theorem customPartition_sizeMismatch_failsFast (sizes : List Nat) (N : Nat)
    (h : sizes.sum ≠ N) :
    computeParts sizes N = .error .partitionSizeMismatch ∧
    (∀ B, computeParts sizes N ≠ .ok B) ∧
    setupCustomPipeline sizes N = .error .partitionSizeMismatch ∧
    (∀ m, setupCustomPipeline sizes N ≠ .ok m) := by
  have hc : computeParts sizes N = .error .partitionSizeMismatch := by
    simp [computeParts, h]
  refine ⟨hc, fun B hB => ?_, ?_, fun m hm => ?_⟩
  · rw [hc] at hB; exact Except.noConfusion hB
  · rw [setupCustomPipeline, hc]
  · rw [setupCustomPipeline, hc] at hm; exact Except.noConfusion hm

/-- Claim C4, witness: sizes `[1,2,2,3]` sum to `8 ≠ 7`, so partitioning
against `N = 7` fails with `PartitionSizeMismatch` and builds nothing. -/
theorem customPartition_sizeMismatch_failsFast_witness :
    ([1, 2, 2, 3] : List Nat).sum ≠ 7 ∧
    computeParts [1, 2, 2, 3] 7 = .error .partitionSizeMismatch ∧
    setupCustomPipeline [1, 2, 2, 3] 7 = .error .partitionSizeMismatch :=
  ⟨by decide,
    (customPartition_sizeMismatch_failsFast [1, 2, 2, 3] 7 (by decide)).1,
    (customPartition_sizeMismatch_failsFast [1, 2, 2, 3] 7 (by decide)).2.2.1⟩

/-- Claim C10: in custom mode with `P` sizes summing to `N`, the boundary
list has exactly `P + 1` entries, starts at `0`, is nondecreasing, and ends
at `N + 2`, which is exactly the length of the extended layer list handed to
the pipeline (`N` encoder layers plus the final LayerNorm and the
sum-reduction step), so the partition covers that whole list. -/
theorem customPartition_boundary_invariants (sizes : List Nat) (N : Nat)
    (hne : sizes ≠ []) (hsum : sizes.sum = N) :
    ∃ B, computeParts sizes N = .ok B ∧
      B.length = sizes.length + 1 ∧
      B.getD 0 0 = 0 ∧
      (∀ j < sizes.length, B.getD j 0 ≤ B.getD (j + 1) 0) ∧
      B.getD sizes.length 0 = N + 2 ∧
      (pipelineLayers N).length = N + 2 := by
  have hwlen : (widenLast sizes).length = sizes.length := length_widenLast sizes
  refine ⟨partBoundaries (widenLast sizes), by simp [computeParts, hsum],
    by rw [partBoundaries_length, hwlen], by simp [partBoundaries], ?_, ?_, ?_⟩
  · intro j hj
    rw [partBoundaries_getD _ _ (by omega), partBoundaries_getD _ _ (by omega)]
    rw [List.sum_take_succ _ j (by omega)]
    exact Nat.le_add_right _ _
  · rw [partBoundaries_getD _ _ (by omega), ← hwlen, List.take_length,
      sum_widenLast _ hne, hsum]
  · simp [pipelineLayers]

/-- Claim C10, witness: the invariants at sizes `[1,2,2,3]`, `N = 8`. -/
theorem customPartition_boundary_invariants_witness :
    ([1, 2, 2, 3] : List Nat).sum = 8 ∧
    ∃ B, computeParts [1, 2, 2, 3] 8 = .ok B ∧
      B.length = ([1, 2, 2, 3] : List Nat).length + 1 ∧
      B.getD 0 0 = 0 ∧
      (∀ j < ([1, 2, 2, 3] : List Nat).length, B.getD j 0 ≤ B.getD (j + 1) 0) ∧
      B.getD ([1, 2, 2, 3] : List Nat).length 0 = 8 + 2 ∧
      (pipelineLayers 8).length = 8 + 2 :=
  ⟨by decide,
    customPartition_boundary_invariants [1, 2, 2, 3] 8 (by decide) (by decide)⟩

/-! ## Claim theorem: rendezvous configuration (C9) -/

theorem lookup_setConfig (l : List (String × Int)) (k : String) (v : Int) :
    (setConfig l k v).lookup k = some v := by
  induction l with
  | nil => simp [setConfig, List.lookup]
  | cons p rest ih =>
    obtain ⟨k', v'⟩ := p
    by_cases h : k' = k
    · subst h
      simp [setConfig, List.lookup]
    · rw [setConfig, if_neg h, List.lookup]
      have : (k == k') = false := by
        simp [Ne.symm h]
      rw [this]
      exact ih

/-- Claim C9: whatever rendezvous configuration blob the caller supplies, the
`last_call_timeout` actually passed to the rendezvous handler is `1`: the
configured value is unconditionally overwritten before the parameters are
constructed, so it never takes effect. -/
theorem rdzvConfig_lastCallTimeout_is_one (configs : List (String × Int)) :
    handlerLastCallTimeout configs = some 1 :=
  lookup_setConfig configs "last_call_timeout" 1

/-! ## Claim theorems: Topology Builder (C1, C6) -/

theorem assignCoords_getElem? {α : Type} (D : Nat) (l : List α) :
    ∀ (s i : Nat), (assignCoords D s l)[i]? =
      l[i]?.map (fun w => (w, GridCoordinate.mk ((s + i) / D) ((s + i) % D))) := by
  induction l with
  | nil => intro s i; simp [assignCoords]
  | cons w ws ih =>
    intro s i
    cases i with
    | zero => simp [assignCoords]
    | succ i =>
      rw [assignCoords, List.getElem?_cons_succ, List.getElem?_cons_succ, ih (s + 1) i]
      simp only [show ∀ i, s + 1 + i = s + (i + 1) from fun i => by omega]

/-- Claim C1: given `P * D` equal to the decision size, the Topology Builder
assigns the `i`-th worker in decision order the coordinate
`(pipeline_rank = i / D, data_parallel_rank = i % D)`, every assigned
coordinate lies in `[0,P) × [0,D)`, and each coordinate of `[0,P) × [0,D)` is
assigned to exactly one worker (a bijection); in particular a decision of 6
workers with `pipeline_size = 3` and `data_parallel_size = 2` yields the
coordinates `(0,0),(0,1),(1,0),(1,1),(2,0),(2,1)` in order. -/
theorem topology_rowMajor_bijection {α : Type} (decision : List α) (P D : Nat)
    (h : P * D = decision.length) :
    buildTopology decision P D = .ok (assignCoords D 0 decision) ∧
    (∀ i w, decision[i]? = some w →
      (assignCoords D 0 decision)[i]? = some (w, GridCoordinate.mk (i / D) (i % D))) ∧
    (∀ i, i < decision.length → i / D < P ∧ i % D < D) ∧
    (∀ p d, p < P → d < D →
      ∃! i, i < decision.length ∧ i / D = p ∧ i % D = d) ∧
    buildTopology ([0, 1, 2, 3, 4, 5] : List Nat) 3 2 =
      .ok [(0, ⟨0, 0⟩), (1, ⟨0, 1⟩), (2, ⟨1, 0⟩),
           (3, ⟨1, 1⟩), (4, ⟨2, 0⟩), (5, ⟨2, 1⟩)] := by
  refine ⟨by simp [buildTopology, h], ?_, ?_, ?_, rfl⟩
  · intro i w hw
    rw [assignCoords_getElem?, hw]
    simp
  · intro i hi
    rcases Nat.eq_zero_or_pos D with hD | hD
    · subst hD
      rw [Nat.mul_zero] at h
      omega
    · have hi' : i < D * P := by rw [Nat.mul_comm D P, h]; exact hi
      exact ⟨Nat.div_lt_of_lt_mul hi', Nat.mod_lt _ hD⟩
  · intro p d hp hd
    have hD : 0 < D := by omega
    have hmem : D * p + d < decision.length := by
      have h1 : D * p + d < D * (p + 1) := by
        rw [Nat.mul_succ]; omega
      have h2 : D * (p + 1) ≤ D * P := Nat.mul_le_mul_left D hp
      rw [← h, Nat.mul_comm P D]
      omega
    refine ⟨D * p + d, ⟨hmem, ?_, ?_⟩, ?_⟩
    · rw [Nat.mul_add_div hD, Nat.div_eq_of_lt hd, Nat.add_zero]
    · rw [Nat.mul_add_mod, Nat.mod_eq_of_lt hd]
    · rintro j ⟨_, hjp, hjd⟩
      have := Nat.div_add_mod j D
      rw [hjp, hjd] at this
      omega

/-- Claim C1, witness: the row-major assignment at the 6-worker decision with
`P = 3`, `D = 2`. -/
theorem topology_rowMajor_bijection_witness :
    3 * 2 = ([0, 1, 2, 3, 4, 5] : List Nat).length ∧
    buildTopology ([0, 1, 2, 3, 4, 5] : List Nat) 3 2 =
      .ok [(0, ⟨0, 0⟩), (1, ⟨0, 1⟩), (2, ⟨1, 0⟩),
           (3, ⟨1, 1⟩), (4, ⟨2, 0⟩), (5, ⟨2, 1⟩)] :=
  ⟨by decide, (topology_rowMajor_bijection [0, 1, 2, 3, 4, 5] 3 2 (by decide)).2.2.2.2⟩

/-- Claim C6: whenever `P * D` differs from the decision size, the Topology
Builder fails with `TopologyMismatch` and produces no coordinate assignment
(it never auto-resizes the grid). -/
theorem topology_mismatch_failFast {α : Type} (decision : List α) (P D : Nat)
    (h : P * D ≠ decision.length) :
    buildTopology decision P D = .error .topologyMismatch ∧
    ∀ m, buildTopology decision P D ≠ .ok m := by
  have hb : buildTopology decision P D = .error .topologyMismatch := by
    simp [buildTopology, h]
  exact ⟨hb, fun m hm => by rw [hb] at hm; exact Except.noConfusion hm⟩

/-- Claim C6, witness: a 5-worker decision with `P = 3`, `D = 2` (grid of 6)
is rejected with `TopologyMismatch`. -/
theorem topology_mismatch_failFast_witness :
    3 * 2 ≠ ([0, 1, 2, 3, 4] : List Nat).length ∧
    buildTopology ([0, 1, 2, 3, 4] : List Nat) 3 2 = .error .topologyMismatch :=
  ⟨by decide, (topology_mismatch_failFast [0, 1, 2, 3, 4] 3 2 (by decide)).1⟩

/-! ## Claim theorem: uniform partitioning (C5) -/

theorem uniformBoundary_mono (N P : Nat) {j k : Nat} (h : j ≤ k) :
    uniformBoundary N P j ≤ uniformBoundary N P k :=
  Nat.div_le_div_right (Nat.mul_le_mul_right N h)

theorem uniformBoundary_succ (N P j : Nat) (hP : 0 < P) :
    uniformBoundary N P (j + 1) = uniformBoundary N P j + N / P +
      (if P ≤ j * N % P + N % P then 1 else 0) := by
  unfold uniformBoundary
  rw [Nat.succ_mul, Nat.add_div hP]

theorem uniformSize_bounds (N P j : Nat) (hP : 0 < P) :
    N / P ≤ uniformBoundary N P (j + 1) - uniformBoundary N P j ∧
    uniformBoundary N P (j + 1) - uniformBoundary N P j ≤ N / P + 1 := by
  rw [uniformBoundary_succ N P j hP]
  generalize uniformBoundary N P j = b
  generalize N / P = q
  split <;> omega

theorem exists_interval (g : Nat → Nat) :
    ∀ (P x : Nat), g 0 ≤ x → x < g P →
      ∃ j, j < P ∧ g j ≤ x ∧ x < g (j + 1) := by
  intro P
  induction P with
  | zero => intro x h0 hP; omega
  | succ P ih =>
    intro x h0 hP
    by_cases hc : g P ≤ x
    · exact ⟨P, Nat.lt_succ_self P, hc, hP⟩
    · obtain ⟨j, hj, h1, h2⟩ := ih x h0 (by omega)
      exact ⟨j, by omega, h1, h2⟩

/-- Claim C5: with `0 < P ≤ N`, the uniform partition has exactly `P`
contiguous half-open ranges, its boundaries run from `0` to `N`, every index
of `[0, N)` lies in exactly one range, and any two range sizes differ by at
most 1; in particular `N = 8`, `P = 4` yields `[0,2),[2,4),[4,6),[6,8)`. -/
theorem uniformPartition_balanced_cover (N P : Nat) (hP : 0 < P) (_hPN : P ≤ N) :
    (uniformPartition N P).length = P ∧
    uniformBoundary N P 0 = 0 ∧
    uniformBoundary N P P = N ∧
    (∀ x < N, ∃! j, j < P ∧ uniformBoundary N P j ≤ x ∧ x < uniformBoundary N P (j + 1)) ∧
    (∀ i < P, ∀ j < P,
      uniformBoundary N P (i + 1) - uniformBoundary N P i ≤
        (uniformBoundary N P (j + 1) - uniformBoundary N P j) + 1) ∧
    uniformPartition 8 4 = [(0, 2), (2, 4), (4, 6), (6, 8)] := by
  have hb0 : uniformBoundary N P 0 = 0 := by simp [uniformBoundary]
  have hbP : uniformBoundary N P P = N := by
    unfold uniformBoundary
    exact Nat.mul_div_cancel_left N hP
  refine ⟨by simp [uniformPartition], hb0, hbP, ?_, ?_, by decide⟩
  · intro x hx
    obtain ⟨j, hj, h1, h2⟩ :=
      exists_interval (uniformBoundary N P) P x (by omega) (by omega)
    refine ⟨j, ⟨hj, h1, h2⟩, ?_⟩
    rintro k ⟨_, hk1, hk2⟩
    by_contra hne
    rcases Nat.lt_or_ge k j with hlt | hge
    · have : uniformBoundary N P (k + 1) ≤ uniformBoundary N P j :=
        uniformBoundary_mono N P hlt
      omega
    · have hlt : j < k := by omega
      have : uniformBoundary N P (j + 1) ≤ uniformBoundary N P k :=
        uniformBoundary_mono N P hlt
      omega
  · intro i _ j _
    have hi := uniformSize_bounds N P i hP
    have hj := uniformSize_bounds N P j hP
    omega

/-- Claim C5, witness: the uniform partition at `N = 8`, `P = 4`. -/
theorem uniformPartition_balanced_cover_witness :
    0 < 4 ∧ 4 ≤ 8 ∧ uniformPartition 8 4 = [(0, 2), (2, 4), (4, 6), (6, 8)] :=
  ⟨by decide, by decide,
    (uniformPartition_balanced_cover 8 4 (by decide) (by decide)).2.2.2.2.2⟩

/-! ## Claim theorem: redundancy and recovery (C7) -/

theorem card_redundancyGroup (stage D R : Nat) :
    (redundancyGroup stage D R).card = R + 1 := by
  unfold redundancyGroup
  rw [Finset.card_image_of_injective _ (fun a b h => Nat.add_left_cancel h)]
  exact Finset.card_range (R + 1)

/-- Claim C7: with `redundancy_level = R`, losing any `k ≤ R` workers from a
stage's redundancy group never yields an unrecoverable plan: at least one
member survives and the plan promotes survivors. In particular with `R = 1`,
stage 2's two-member group `{4, 5}` (at data-parallel width 2) loses member 4
→ recoverable with the survivor 5 promoted; losing both members →
`UnrecoverableLoss`. -/
theorem redundancy_tolerates_R_losses (stage D R : Nat) (lost : Finset Nat)
    (hsub : lost ⊆ redundancyGroup stage D R) (hcard : lost.card ≤ R) :
    (planGroupLoss (redundancyGroup stage D R) lost).unrecoverable = false ∧
    (planGroupLoss (redundancyGroup stage D R) lost).promotions.Nonempty ∧
    (planGroupLoss (redundancyGroup stage D R) lost).promotions =
      redundancyGroup stage D R \ lost ∧
    redundancyGroup 2 2 1 = {4, 5} ∧
    planGroupLoss (redundancyGroup 2 2 1) {4} =
      { unrecoverable := false, promotions := {5} } ∧
    planGroupLoss (redundancyGroup 2 2 1) {4, 5} =
      { unrecoverable := true, promotions := ∅ } := by
  have hpos : 0 < (redundancyGroup stage D R \ lost).card := by
    rw [Finset.card_sdiff hsub, card_redundancyGroup]
    omega
  have hne : redundancyGroup stage D R \ lost ≠ ∅ := by
    intro h
    rw [h] at hpos
    simp at hpos
  refine ⟨by simp [planGroupLoss, hne], ?_, by simp [planGroupLoss, hne],
    by decide, by decide, by decide⟩
  rw [planGroupLoss]
  simp only [hne, if_false]
  exact Finset.card_pos.mp hpos

/-- Claim C7, witness: stage 2's group `{4, 5}` at `R = 1`, `D = 2` loses
worker 4 (one loss, `k = 1 ≤ R`): the plan is recoverable. -/
theorem redundancy_tolerates_R_losses_witness :
    ({4} : Finset Nat) ⊆ redundancyGroup 2 2 1 ∧
    ({4} : Finset Nat).card ≤ 1 ∧
    (planGroupLoss (redundancyGroup 2 2 1) {4}).unrecoverable = false :=
  ⟨by decide, by decide,
    (redundancy_tolerates_R_losses 2 2 1 {4} (by decide) (by decide)).1⟩

/-! ## Claim theorem: rendezvous timeout (C8) -/

theorem joinRound_timeout (f : Nat → Nat) (minN maxN lastCall : Nat)
    (hmm : minN ≤ maxN) :
    ∀ fuel t, (∀ u, u ≤ t + fuel → f u < minN) →
      joinRound f minN maxN lastCall fuel t = .error .rendezvousTimeout := by
  intro fuel
  induction fuel with
  | zero =>
    intro t h
    have h1 : f t < minN := h t (by omega)
    rw [joinRound, if_neg (by omega)]
  | succ fuel ih =>
    intro t h
    have h1 : f t < minN := h t (by omega)
    rw [joinRound, if_neg (by omega), if_neg (by omega)]
    exact ih (t + 1) (fun u hu => h u (by omega))

/-- Claim C8: whenever the number of registered workers stays below
`min_nodes` at every instant up to the overall setup timeout `T`, `join`
fails with the fatal `RendezvousTimeout`; in particular with `min_nodes = 2`,
`max_nodes = 4` and a single worker registered throughout, `join` yields
`RendezvousTimeout`. -/
theorem rendezvous_timeout_below_min (f : Nat → Nat)
    (minN maxN lastCall T : Nat) (hmm : minN ≤ maxN)
    (h : ∀ u ≤ T, f u < minN) :
    join f minN maxN lastCall T = .error .rendezvousTimeout ∧
    join (fun _ => 1) 2 4 1 5 = .error .rendezvousTimeout := by
  constructor
  · exact joinRound_timeout f minN maxN lastCall hmm T 0
      (fun u hu => h u (by omega))
  · rfl

/-- Claim C8, witness: `min_nodes = 2`, `max_nodes = 4`, a single worker
registered at every instant up to the deadline `T = 5`. -/
theorem rendezvous_timeout_below_min_witness :
    (2 : Nat) ≤ 4 ∧ join (fun _ => 1) 2 4 1 5 = .error .rendezvousTimeout :=
  ⟨by decide,
    (rendezvous_timeout_below_min (fun _ => 1) 2 4 1 5 (by decide)
      (fun u _ => Nat.one_lt_two)).1⟩

end Bamboo
